import Mathlib

/-!
Shallow embedding of `product-db-generation/transform_to_clean_csv.py`.

Python strings are modelled as Lean `String` (lists of code points); Python
`None`-able values as `Option`; a Python function that can raise an uncaught
exception is modelled as returning `Option` (`none` = the exception escapes).
Character-class helpers (`str.strip`, `str.lower`, `\d`, `\s`) are modelled on
the ASCII range, which is the range the script's data and patterns exercise.
-/

/-- Models Python's whitespace class for `str.strip` and regex `\s`
(ASCII part: space, tab, newline, carriage return, vertical tab, form feed). -/
def isPySpace (c : Char) : Bool :=
  c = ' ' || c = '\t' || c = '\n' || c = '\r' || c = '\x0B' || c = '\x0C'

/-- Drop the trailing run of characters satisfying `p`. -/
def dropTrail (p : Char → Bool) (l : List Char) : List Char :=
  l.foldr (fun c acc => if acc.isEmpty && p c then [] else c :: acc) []

/-- Models Python `str.strip()` on a character list. -/
def stripChars (l : List Char) : List Char :=
  dropTrail isPySpace (l.dropWhile isPySpace)

/-- Models Python `str.strip()`. -/
def pyStrip (s : String) : String :=
  ⟨stripChars s.data⟩

/-- Models Python `str.lower()` on one character (ASCII case mapping). -/
def lowerChar (c : Char) : Char :=
  if 65 ≤ c.toNat ∧ c.toNat ≤ 90 then Char.ofNat (c.toNat + 32) else c

/-- Models Python `str.lower()` (ASCII range). -/
def pyLower (s : String) : String :=
  ⟨s.data.map lowerChar⟩

/-- Models Python slicing `s[:n]`. -/
def strTake (s : String) (n : ℕ) : String :=
  ⟨s.data.take n⟩

/-- `True` for `[A-Z0-9]`, the character class of the ASIN regex. -/
def asinChar (c : Char) : Bool :=
  (65 ≤ c.toNat && c.toNat ≤ 90) || c.isDigit

/-- One attempt of `re.search(r"/dp/([A-Z0-9]{9,10})", url)` at the head of
the remaining text: succeeds if the text starts with `/dp/` followed by at
least 9 characters of `[A-Z0-9]`, the greedy quantifier capturing at most 10. -/
def matchAt (l : List Char) : Option (List Char) :=
  if l.take 4 = ['/', 'd', 'p', '/'] then
    let run := (l.drop 4).takeWhile asinChar
    if 9 ≤ run.length then some (run.take 10) else none
  else none

/-- `re.search` scanning: try `matchAt` at each position, leftmost first. -/
def scanAsin : List Char → Option (List Char)
  | [] => none
  | c :: t =>
    match matchAt (c :: t) with
    | some r => some r
    | none => scanAsin t

/-- Models `_extract_asin` from the script: the first `/dp/` code found, else
the empty string. -/
def extract_asin (url : String) : String :=
  match scanAsin url.data with
  | some r => ⟨r⟩
  | none => ""

/-- Models `_extract_asin(url)` where `url` may be Python `None`
(the source evaluates `url or ""`). -/
def extract_asin_opt (url : Option String) : String :=
  extract_asin (url.getD "")

/-- `ALLOWED_LABELS` from the script, verbatim. -/
def ALLOWED_LABELS : List String :=
  ["Whiteheads", "Blackheads", "Cystic acne", "Hormonal breakouts", "Acne scarring",
   "Textured skin", "Large pores", "Hyperpigmentation", "Post-inflammatory hyperpigmentation",
   "Melasma", "Uneven skin tone", "Wrinkles", "Fine lines", "Oily skin", "Dry skin",
   "Combination skin", "Normal skin"]

/-- `norm` inside `_fallback_labels`: `s.lower().replace("-", " ")`. -/
def normKw (l : List Char) : List Char :=
  (l.map lowerChar).map (fun c => if c = '-' then ' ' else c)

/-- `pat` is a prefix of `l` (character-wise). -/
def leadsWith : List Char → List Char → Bool
  | [], _ => true
  | _ :: _, [] => false
  | a :: as, b :: bs => a = b && leadsWith as bs

/-- Models Python `pat in hay` (substring containment). -/
def containsSub (hay pat : List Char) : Bool :=
  hay.tails.any (fun t => leadsWith pat t)

/-- `",".join` on character lists. -/
def joinComma : List (List Char) → List Char
  | [] => []
  | [x] => x
  | x :: xs => x ++ ',' :: joinComma xs

/-- Models `_fallback_labels`: keyword-overlap match of the allowed labels
against the normalised `title + " " + raw_text`, comma-joined and lowercased,
or `""` when nothing matches. -/
def fallback_labels (title raw_text : String) : String :=
  let text := normKw (title ++ " " ++ raw_text).data
  let matched := ALLOWED_LABELS.filter (fun lb => containsSub text (normKw lb.data))
  if matched.isEmpty then "" else ⟨(joinComma (matched.map String.data)).map lowerChar⟩

/-- Splitting a character list at commas (inverse view of `joinComma`). -/
def splitComma : List Char → List (List Char)
  | [] => [[]]
  | c :: t =>
    if c = ',' then [] :: splitComma t
    else
      match splitComma t with
      | [] => [[c]]
      | u :: us => (c :: u) :: us

/-- The allowed labels, lowercased, as character lists. -/
def allowedLowerL : List (List Char) :=
  ALLOWED_LABELS.map (fun s => s.data.map lowerChar)

/-- A labels string is well-formed when it is empty or is a comma-join of
lowercased members of the allowed label set. -/
def wellFormedLabels (s : String) : Bool :=
  s.data.isEmpty || (splitComma s.data).all (fun u => allowedLowerL.contains u)

/-- One value of the dict `load_reference_by_asin` builds per ASIN. -/
structure RefEntry where
  description : String
  labels : String
  image_links : String
  price : String
deriving DecidableEq

/-- Header of the reference CSV, as the source's comment records it. -/
def refHeader : List String :=
  ["id", "name", "description", "labels", "image_links", "product_link", "price"]

/-- Models `idx = {h: i for i, h in enumerate(header)}` followed by `idx[k]`:
the index of the last occurrence of `k` in the header, `none` when absent
(Python raises `KeyError`). -/
def pyIdx (header : List String) (k : String) : Option ℕ :=
  header.enum.foldl (fun acc p => if p.2 = k then some p.1 else acc) none

/-- Processing of one reference CSV row by `load_reference_by_asin`:
rows with fewer than 7 fields are skipped, rows whose product link yields no
ASIN are skipped, other rows are inserted (overwriting an earlier ASIN).
`none` models an uncaught Python exception (`KeyError`/`IndexError`). -/
def refStep (header : List String) (d : List (String × RefEntry)) (row : List String) :
    Option (List (String × RefEntry)) :=
  if row.length < 7 then some d
  else do
    let ipl ← pyIdx header "product_link"
    let pl ← row.get? ipl
    let asin := extract_asin (pyStrip pl)
    if asin = "" then some d
    else do
      let idsc ← pyIdx header "description"
      let dsc ← row.get? idsc
      let ilb ← pyIdx header "labels"
      let lb ← row.get? ilb
      let iim ← pyIdx header "image_links"
      let im ← row.get? iim
      let ipr ← pyIdx header "price"
      let pr ← row.get? ipr
      some ((asin, ⟨dsc, pyStrip lb, pyStrip im, pyStrip pr⟩) :: d)

/-- Models `load_reference_by_asin`: fold the rows of the reference CSV into
an ASIN-keyed map (represented as an association list whose FIRST binding for
a key is the most recent, matching dict overwrite plus `List.lookup`). -/
def load_reference_by_asin (header : List String) (rows : List (List String)) :
    Option (List (String × RefEntry)) :=
  rows.foldlM (refStep header) []

/-- One raw input row, with the fields the script reads; a missing field (the
`row.get(key) or ""` in `_get`) is modelled as the empty string. -/
structure RawRow where
  title : String
  url : String
  productDescription : String
  additionalInfo : String
  aboutProduct : String
  wholePriceBlockText : String
deriving DecidableEq

/-- `re.sub(r"\n{3,}", "\n\n", ...)`: a maximal run of `n` newlines is kept
if `n < 3` and shortened to two newlines otherwise. -/
def emitNl (n : ℕ) : List Char :=
  if 3 ≤ n then ['\n', '\n'] else List.replicate n '\n'

def collapseNlAux : List Char → ℕ → List Char
  | [], n => emitNl n
  | c :: t, n =>
    if c = '\n' then collapseNlAux t (n + 1) else emitNl n ++ c :: collapseNlAux t 0

def collapseNl (l : List Char) : List Char := collapseNlAux l 0

/-- `re.sub(r" {2,}", " ", ...)`: a maximal run of `n ≥ 2` spaces becomes one. -/
def emitSp (n : ℕ) : List Char :=
  if 2 ≤ n then [' '] else List.replicate n ' '

def collapseSpAux : List Char → ℕ → List Char
  | [], n => emitSp n
  | c :: t, n =>
    if c = ' ' then collapseSpAux t (n + 1) else emitSp n ++ c :: collapseSpAux t 0

def collapseSp (l : List Char) : List Char := collapseSpAux l 0

/-- Models `raw_text_for_llm`: join the three descriptive fields, collapse
whitespace runs, truncate to 12000 code points, fall back to the title. -/
def raw_text_for_llm (row : RawRow) : String :=
  let parts := [pyStrip row.productDescription, pyStrip row.additionalInfo,
                pyStrip row.aboutProduct]
  let blob := String.intercalate "\n\n" (parts.filter (fun p => p ≠ ""))
  let blob : String := ⟨collapseSp (collapseNl blob.data)⟩
  let b := pyStrip (strTake blob 12000)
  if b ≠ "" then b else pyStrip row.title

/-- JSON values as `json.loads` produces them; numbers keep their raw text
(the claims never depend on numeric values, only on truthiness). -/
inductive Json where
  | null : Json
  | bool (b : Bool) : Json
  | num (raw : String) : Json
  | str (s : String) : Json
  | arr (l : List Json) : Json
  | obj (l : List (String × Json)) : Json

/-- JSON inter-token whitespace. -/
def jWs (c : Char) : Bool :=
  c = ' ' || c = '\t' || c = '\n' || c = '\r'

def jwsSkip (l : List Char) : List Char := l.dropWhile jWs

/-- One JSON string escape character. -/
def escChar : Char → Option Char
  | '"' => some '"'
  | '\\' => some '\\'
  | '/' => some '/'
  | 'b' => some '\x08'
  | 'f' => some '\x0C'
  | 'n' => some '\n'
  | 'r' => some '\r'
  | 't' => some '\t'
  | _ => none

def hexVal (c : Char) : Option ℕ :=
  if c.isDigit then some (c.toNat - 48)
  else if 97 ≤ c.toNat ∧ c.toNat ≤ 102 then some (c.toNat - 87)
  else if 65 ≤ c.toNat ∧ c.toNat ≤ 70 then some (c.toNat - 55)
  else none

/-- Body of a JSON string after the opening quote; rejects raw control
characters, accepts the standard escapes (a `\uXXXX` escape is mapped through
`Char.ofNat`; surrogate-pair recombination is not modelled). -/
def pStrBody : List Char → Option (List Char × List Char)
  | [] => none
  | '"' :: r => some ([], r)
  | '\\' :: r =>
    match r with
    | 'u' :: a :: b :: c :: d :: r2 => do
      let va ← hexVal a
      let vb ← hexVal b
      let vc ← hexVal c
      let vd ← hexVal d
      let (s, rest) ← pStrBody r2
      some (Char.ofNat (va * 4096 + vb * 256 + vc * 16 + vd) :: s, rest)
    | e :: r2 => do
      let c ← escChar e
      let (s, rest) ← pStrBody r2
      some (c :: s, rest)
    | [] => none
  | c :: r =>
    if c.toNat < 32 then none
    else do
      let (s, rest) ← pStrBody r
      some (c :: s, rest)

/-- JSON number token, per the scanner regex
`(-?(?:0|[1-9]\\d*))(\\.\\d+)?([eE][-+]?\\d+)?`: optional groups that fail to
match leave their text unconsumed.  The token is kept as raw text. -/
def pNum (l : List Char) : Option (List Char × List Char) :=
  let (sign, l1) := match l with
    | '-' :: t => (['-'], t)
    | _ => ([], l)
  let (intd, l2) := match l1 with
    | '0' :: t => (['0'], t)
    | _ => (l1.takeWhile Char.isDigit, l1.dropWhile Char.isDigit)
  if intd.isEmpty then none
  else
    let (fracd, l3) := match l2 with
      | '.' :: t =>
        let fd := t.takeWhile Char.isDigit
        if fd.isEmpty then ([], l2) else ('.' :: fd, t.dropWhile Char.isDigit)
      | _ => ([], l2)
    let (expd, l4) := match l3 with
      | e :: t =>
        if e = 'e' ∨ e = 'E' then
          let (es, t1) := match t with
            | '+' :: t2 => (['+'], t2)
            | '-' :: t2 => (['-'], t2)
            | _ => ([], t)
          let ed := t1.takeWhile Char.isDigit
          if ed.isEmpty then ([], l3) else (e :: (es ++ ed), t1.dropWhile Char.isDigit)
        else ([], l3)
      | [] => ([], l3)
    some (sign ++ intd ++ fracd ++ expd, l4)

mutual

/-- JSON value at the head of the input (whitespace already skipped), with a
fuel bound on nesting (any fuel above the input length is enough). -/
def pVal : ℕ → List Char → Option (Json × List Char)
  | 0, _ => none
  | fuel + 1, l =>
    match l with
    | 'n' :: 'u' :: 'l' :: 'l' :: r => some (.null, r)
    | 't' :: 'r' :: 'u' :: 'e' :: r => some (.bool true, r)
    | 'f' :: 'a' :: 'l' :: 's' :: 'e' :: r => some (.bool false, r)
    | 'N' :: 'a' :: 'N' :: r => some (.num "NaN", r)
    | 'I' :: 'n' :: 'f' :: 'i' :: 'n' :: 'i' :: 't' :: 'y' :: r =>
      some (.num "Infinity", r)
    | '-' :: 'I' :: 'n' :: 'f' :: 'i' :: 'n' :: 'i' :: 't' :: 'y' :: r =>
      some (.num "-Infinity", r)
    | '"' :: r => (pStrBody r).map (fun p => (.str ⟨p.1⟩, p.2))
    | '[' :: r =>
      match jwsSkip r with
      | ']' :: r2 => some (.arr [], r2)
      | r1 => (pItems fuel r1).map (fun p => (.arr p.1, p.2))
    | '{' :: r =>
      match jwsSkip r with
      | '}' :: r2 => some (.obj [], r2)
      | r1 => (pMembers fuel r1).map (fun p => (.obj p.1, p.2))
    | _ => (pNum l).map (fun p => (.num ⟨p.1⟩, p.2))

/-- Comma-separated JSON values up to the closing `]`. -/
def pItems : ℕ → List Char → Option (List Json × List Char)
  | 0, _ => none
  | fuel + 1, l => do
    let (v, r) ← pVal fuel l
    match jwsSkip r with
    | ',' :: r2 => do
      let (tl, rest) ← pItems fuel (jwsSkip r2)
      some (v :: tl, rest)
    | ']' :: r2 => some ([v], r2)
    | _ => none

/-- Comma-separated `"key": value` pairs up to the closing `}`. -/
def pMembers : ℕ → List Char → Option (List (String × Json) × List Char)
  | 0, _ => none
  | fuel + 1, l =>
    match l with
    | '"' :: r => do
      let (k, r1) ← pStrBody r
      match jwsSkip r1 with
      | ':' :: r3 => do
        let (v, r4) ← pVal fuel (jwsSkip r3)
        match jwsSkip r4 with
        | ',' :: r6 => do
          let (tl, rest) ← pMembers fuel (jwsSkip r6)
          some ((⟨k⟩, v) :: tl, rest)
        | '}' :: r6 => some ([(⟨k⟩, v)], r6)
        | _ => none
      | _ => none
    | _ => none

end

/-- Models Python `json.loads`: one JSON document with surrounding whitespace,
`none` on any parse error (`json.JSONDecodeError`). -/
def jsonParse (s : String) : Option Json :=
  let l := jwsSkip s.data
  match pVal (l.length + 1) l with
  | some (v, rest) => if jwsSkip rest = [] then some v else none
  | none => none

/-- Models `data.get(k)` on a parsed JSON object: last binding wins, as for
duplicate keys in `json.loads`. -/
def jGet (kvs : List (String × Json)) (k : String) : Option Json :=
  kvs.foldl (fun acc p => if p.1 = k then some p.2 else acc) none

/-- Python truthiness of a decoded JSON value (for the `or` defaults). -/
def jTruthy : Json → Bool
  | .null => false
  | .bool b => b
  | .str s => s ≠ ""
  | .num raw =>
    raw.data.any (fun c => c = 'N' ∨ c = 'I')
      || (raw.data.takeWhile (fun c => c ≠ 'e' ∧ c ≠ 'E')).any
           (fun c => c.isDigit ∧ c ≠ '0')
  | .arr l => ¬ l.isEmpty
  | .obj l => ¬ l.isEmpty

/-- Models `.replace("\\n", "\n")`: every literal backslash-n pair becomes a
newline, scanning left to right. -/
def descUnescape : List Char → List Char
  | '\\' :: 'n' :: t => '\n' :: descUnescape t
  | c :: t => c :: descUnescape t
  | [] => []

/-- The backtick character (code 96). -/
def backtickChar : Char := Char.ofNat 96

/-- Models `re.sub(r"^```(?:json)?\s*", "", text)`: at most one leading
code-fence marker is removed together with following whitespace. -/
def stripLeadingFence (l : List Char) : List Char :=
  if l.take 3 = List.replicate 3 backtickChar then
    let r := l.drop 3
    let r := if r.take 4 = ['j', 's', 'o', 'n'] then r.drop 4 else r
    r.dropWhile isPySpace
  else l

/-- Models `re.sub(r"\s*```\s*$", "", text)`: a trailing code-fence marker is
removed together with surrounding whitespace. -/
def stripTrailingFence (l : List Char) : List Char :=
  let rs := l.reverse.dropWhile isPySpace
  if rs.take 3 = List.replicate 3 backtickChar then
    ((rs.drop 3).dropWhile isPySpace).reverse
  else l

/-- `response.content[0].text if response.content else ""`: the response is
modelled as its list of content-block texts. -/
def responseText (content : List String) : String :=
  match content with
  | [] => ""
  | t :: _ => t

/-- The response text after fence stripping and `strip()`, the exact string
handed to `json.loads`. -/
def cleanedResponse (content : List String) : String :=
  pyStrip ⟨stripTrailingFence (stripLeadingFence (responseText content).data)⟩

/-- Outcome of the external call attempt in `generate_description_and_labels`
(only reached when a credential is configured): the `anthropic` import can
fail, the request can raise, or a response with a list of content blocks
(each modelled by its text) comes back. -/
inductive ApiOutcome where
  | noModule : ApiOutcome
  | apiError : ApiOutcome
  | success (content : List String) : ApiOutcome

/-- `os.environ.get("ANTHROPIC_API_KEY")` is falsy: unset or empty. -/
def apiKeyFalsy : Option String → Bool
  | none => true
  | some s => s = ""

/-- The no-credential fallback description:
`f"{title}\n\n{raw_text[:1500]}" if raw_text else title`. -/
def genFallbackDesc (title raw_text : String) : String :=
  if raw_text ≠ "" then title ++ "\n\n" ++ strTake raw_text 1500 else title

/-- Models `generate_description_and_labels`.  The environment lookup and the
network are inputs (`apiKey`, `outcome`); `none` models an uncaught exception
(`AttributeError` when the decoded JSON is not an object of the expected
shape).  All fallback branches are written out exactly as in the source. -/
def generate_description_and_labels (apiKey : Option String) (outcome : ApiOutcome)
    (title raw_text : String) : Option (String × String) :=
  if apiKeyFalsy apiKey then
    some (genFallbackDesc title raw_text, fallback_labels title raw_text)
  else
    match outcome with
    | .noModule => some (title ++ "\n\n" ++ strTake raw_text 1500, fallback_labels title raw_text)
    | .apiError => some (title ++ "\n\n" ++ strTake raw_text 1500, fallback_labels title raw_text)
    | .success content =>
      let text := cleanedResponse content
      match jsonParse text with
      | none => some (title ++ "\n\n" ++ strTake raw_text 1500, fallback_labels title raw_text)
      | some (.obj kvs) =>
        let dOpt : Option String :=
          match jGet kvs "description" with
          | some v =>
            if jTruthy v then
              match v with
              | .str s => some ⟨descUnescape s.data⟩
              | _ => none
            else some ⟨descUnescape title.data⟩
          | none => some ⟨descUnescape title.data⟩
        let lOpt : Option String :=
          match jGet kvs "labels" with
          | some v =>
            if jTruthy v then
              match v with
              | .str s => some (pyStrip s)
              | _ => none
            else some ""
          | none => some ""
        match dOpt, lOpt with
        | some d, some lab => some (d, lab)
        | _, _ => none
      | some _ => none

/-- Digit characters for decimal rendering. -/
def digitChar : ℕ → Char
  | 0 => '0'
  | 1 => '1'
  | 2 => '2'
  | 3 => '3'
  | 4 => '4'
  | 5 => '5'
  | 6 => '6'
  | 7 => '7'
  | 8 => '8'
  | 9 => '9'
  | _ => '0'

def natReprAux : ℕ → ℕ → List Char
  | 0, _ => []
  | fuel + 1, n =>
    if n < 10 then [digitChar n] else natReprAux fuel (n / 10) ++ [digitChar (n % 10)]

/-- Decimal rendering of a natural number, models Python `str(int)`
for the non-negative integers this script produces. -/
def natRepr (n : ℕ) : List Char :=
  natReprAux (n + 1) n

/-- Round `a / b` (with `b > 0`) to the nearest integer, ties to even — the
rounding IEEE-754 binary64 and Python's fixed-point formatting use. -/
def rheDiv (a b : ℕ) : ℕ :=
  let q := a / b
  let r := a % b
  if 2 * r < b then q else if b < 2 * r then q + 1 else if q % 2 = 0 then q else q + 1

/-- `2 ^ e ≤ N / 10 ^ f`, for a signed exponent, over the naturals. -/
def le2pow (e : ℤ) (N f : ℕ) : Bool :=
  if 0 ≤ e then 2 ^ e.toNat * 10 ^ f ≤ N else 10 ^ f ≤ N * 2 ^ (-e).toNat

/-- Scan upward for the largest `e` with `2 ^ e ≤ N / 10 ^ f`. -/
def findE (N f : ℕ) : ℕ → ℤ → ℤ
  | 0, e => e
  | fuel + 1, e => if le2pow (e + 1) N f then findE N f fuel (e + 1) else e

/-- Correctly rounded conversion of the decimal `N / 10 ^ f` to an IEEE-754
binary64 value, which models CPython `float(<decimal literal>)`.  The result
`(m, sh)` denotes the exact value `m * 2 ^ sh`; `none` models overflow to
`inf`.  `dsig` must be the number of significant decimal digits of `N` (it
seeds the exponent search). -/
def floatOfDecimal (N f dsig : ℕ) : Option (ℕ × ℤ) :=
  if N = 0 then some (0, 0)
  else
    let eLo : ℤ :=
      max (if f + 1 ≤ dsig then 3 * ((dsig : ℤ) - 1 - f) else 4 * ((dsig : ℤ) - 1 - f)) (-1081)
    let e := findE N f (60 + dsig + f) eLo
    let sh := max (e - 52) (-1074)
    let m :=
      if 0 ≤ sh then rheDiv N (10 ^ f * 2 ^ sh.toNat)
      else rheDiv (N * 2 ^ (-sh).toNat) (10 ^ f)
    let overflow :=
      if 0 ≤ sh then 2 ^ 1024 ≤ m * 2 ^ sh.toNat else 2 ^ 1024 * 2 ^ (-sh).toNat ≤ m
    if overflow then none else some (m, sh)

/-- The binary64 value `m * 2 ^ sh` is an integer (`num == int(num)`). -/
def wholeFloat (m : ℕ) (sh : ℤ) : Bool :=
  decide (0 ≤ sh) || m % 2 ^ (-sh).toNat = 0

/-- `int(num)` for a whole binary64 value. -/
def intOfFloat (m : ℕ) (sh : ℤ) : ℕ :=
  if 0 ≤ sh then m * 2 ^ sh.toNat else m / 2 ^ (-sh).toNat

/-- `f"{num:.2f}"` for the binary64 value `m * 2 ^ sh`: the exact value is
rounded (ties to even) to hundredths and printed with two decimals. -/
def fmt2of (m : ℕ) (sh : ℤ) : List Char :=
  let h := if 0 ≤ sh then m * 100 * 2 ^ sh.toNat else rheDiv (m * 100) (2 ^ (-sh).toNat)
  natRepr (h / 100) ++ '.' :: [digitChar (h % 100 / 10), digitChar (h % 100 % 10)]

/-- The regex `^\$?\s*(\d+(?:\.\d+)?)\s*$` of `normalize_price`, returning the
integer and fraction digit runs of the captured group. -/
def matchPrice (l : List Char) : Option (List Char × List Char) :=
  let s1 := match l with
    | '$' :: t => t
    | _ => l
  let s2 := s1.dropWhile isPySpace
  let ip := s2.takeWhile Char.isDigit
  if ip.isEmpty then none
  else
    match s2.dropWhile Char.isDigit with
    | '.' :: r2 =>
      let fp := r2.takeWhile Char.isDigit
      if fp.isEmpty then none
      else if (r2.dropWhile Char.isDigit).all isPySpace then some (ip, fp) else none
    | r => if r.all isPySpace then some (ip, []) else none

/-- Numeric value of a run of decimal digits. -/
def natOfDigits (l : List Char) : ℕ :=
  l.foldl (fun a c => 10 * a + (c.toNat - 48)) 0

/-- Significant decimal digits of the captured number. -/
def sigDigits (ip fp : List Char) : ℕ :=
  (((ip ++ fp).dropWhile (fun c => c = '0'))).length

/-- Models `normalize_price`.  `none` models the uncaught `OverflowError`
Python raises in `int(num)` when `float()` of a huge digit string returns
`inf`.  On the matching path the captured decimal is converted through
binary64 exactly as `float`/`int`/`f"{num:.2f}"` do. -/
def normalize_price (raw : String) : Option String :=
  let r := pyStrip raw
  if r = "" then some ""
  else
    match matchPrice r.data with
    | none => some r
    | some (ip, fp) =>
      match floatOfDecimal (natOfDigits (ip ++ fp)) fp.length (sigDigits ip fp) with
      | none => none
      | some (m, sh) =>
        if wholeFloat m sh then some ⟨natRepr (intOfFloat m sh)⟩
        else some ⟨fmt2of m sh⟩

/-- One output record as `main` assembles it (the sequential `id` is attached
only at write time and is not part of the per-row assembly). -/
structure OutRecord where
  name : String
  description : String
  labels : String
  image_links : String
  product_link : String
  price : String
deriving DecidableEq

/-- Models one iteration of the row loop in `main`: reference reuse when the
URL's ASIN is a key of the reference map, otherwise generation (with the
credential and call outcome as inputs) plus default image URL and price
normalization.  `none` models an uncaught exception. -/
def processRow (ref : List (String × RefEntry)) (apiKey : Option String)
    (outcome : ApiOutcome) (row : RawRow) : Option OutRecord :=
  let title := pyStrip row.title
  let url := pyStrip row.url
  let asin := extract_asin url
  match List.lookup asin ref with
  | some r =>
    some ⟨title, r.description, pyLower r.labels, r.image_links, url, r.price⟩
  | none =>
    let raw_text := raw_text_for_llm row
    match generate_description_and_labels apiKey outcome title raw_text with
    | none => none
    | some (desc, labels) =>
      let image_links :=
        if asin ≠ "" then
          "https://images-na.ssl-images-amazon.com/images/P/" ++ asin ++ ".01.jpg"
        else ""
      match normalize_price (pyStrip row.wholePriceBlockText) with
      | none => none
      | some price => some ⟨title, desc, pyLower labels, image_links, url, price⟩

set_option maxRecDepth 40000

/-- C8: A reference row with fewer than seven fields is skipped silently:
removing it from the dataset does not change the lookup map
`load_reference_by_asin` builds, so it appears under no key. -/
theorem short_reference_rows_skipped (header : List String)
    (rows₁ rows₂ : List (List String)) (row : List String) (h : row.length < 7) :
    load_reference_by_asin header (rows₁ ++ row :: rows₂) =
      load_reference_by_asin header (rows₁ ++ rows₂) := by
  unfold load_reference_by_asin
  rw [List.foldlM_append, List.foldlM_append]
  cases hfold : List.foldlM (refStep header) [] rows₁ with
  | none => rfl
  | some d =>
    show Option.bind _ _ = Option.bind _ _
    simp only [Option.bind]
    rw [List.foldlM_cons]
    have hstep : refStep header d row = some d := by
      unfold refStep
      rw [if_pos h]
    rw [hstep]
    show Option.bind _ _ = _
    simp only [Option.bind]

theorem short_reference_rows_skipped_witness :
    (["1", "Name"] : List String).length < 7 ∧
      load_reference_by_asin refHeader [["1", "Name"]] =
        load_reference_by_asin refHeader [] :=
  ⟨by decide, short_reference_rows_skipped refHeader [] [] ["1", "Name"] (by decide)⟩

/-- C9: A full-width reference row whose product link contains no extractable
ASIN is likewise excluded from the lookup map (a second silent skip, beyond
the column-count rule). -/
theorem no_asin_reference_rows_skipped (rows₁ rows₂ : List (List String))
    (row : List String) (cell : String) (hlen : 7 ≤ row.length)
    (hcell : row.get? 5 = some cell) (hasin : extract_asin (pyStrip cell) = "") :
    load_reference_by_asin refHeader (rows₁ ++ row :: rows₂) =
      load_reference_by_asin refHeader (rows₁ ++ rows₂) := by
  unfold load_reference_by_asin
  rw [List.foldlM_append, List.foldlM_append]
  cases hfold : List.foldlM (refStep refHeader) [] rows₁ with
  | none => rfl
  | some d =>
    show Option.bind _ _ = Option.bind _ _
    simp only [Option.bind]
    rw [List.foldlM_cons]
    have hstep : refStep refHeader d row = some d := by
      unfold refStep
      rw [if_neg (by omega)]
      have hidx : pyIdx refHeader "product_link" = some 5 := by decide
      simp only [hidx, Option.bind_eq_bind, Option.some_bind, hcell, hasin]
      simp only [if_true, eq_self_iff_true]
    rw [hstep]
    show Option.bind _ _ = _
    simp only [Option.bind]

theorem no_asin_reference_rows_skipped_witness :
    7 ≤ (["9", "N", "d", "l", "i", "http://example.com/item", "7"] : List String).length ∧
      (["9", "N", "d", "l", "i", "http://example.com/item", "7"] : List String).get? 5 =
        some "http://example.com/item" ∧
      extract_asin (pyStrip "http://example.com/item") = "" ∧
      load_reference_by_asin refHeader
          [["9", "N", "d", "l", "i", "http://example.com/item", "7"]] =
        load_reference_by_asin refHeader [] :=
  ⟨by decide, by decide, by decide,
    no_asin_reference_rows_skipped [] [] ["9", "N", "d", "l", "i", "http://example.com/item", "7"]
      "http://example.com/item" (by decide) (by decide) (by decide)⟩

/-- C7: When the raw row's URL yields an ASIN that is a key of the reference
map, the assembled record reuses the reference entry's description, image
links and price verbatim (the price not re-normalized) and its labels
lowercased, with the name taken from the raw row's title and the product link
from the raw row's URL. -/
theorem reference_path_reuses_entry (ref : List (String × RefEntry))
    (apiKey : Option String) (outcome : ApiOutcome) (row : RawRow) (r : RefEntry)
    (h : List.lookup (extract_asin (pyStrip row.url)) ref = some r) :
    processRow ref apiKey outcome row =
      some ⟨pyStrip row.title, r.description, pyLower r.labels, r.image_links,
            pyStrip row.url, r.price⟩ := by
  unfold processRow
  simp only [h]

theorem reference_path_reuses_entry_witness :
    List.lookup (extract_asin (pyStrip " https://www.amazon.com/dp/B07TESTASN?x=1 "))
        [("B07TESTASN", RefEntry.mk "A curated description" "Dry Skin, Oily Skin"
            "https://img.example/1.jpg" "$12.50")] =
      some (RefEntry.mk "A curated description" "Dry Skin, Oily Skin"
        "https://img.example/1.jpg" "$12.50") ∧
    processRow
        [("B07TESTASN", RefEntry.mk "A curated description" "Dry Skin, Oily Skin"
            "https://img.example/1.jpg" "$12.50")]
        (some "key") ApiOutcome.apiError
        (RawRow.mk " My Cleanser " " https://www.amazon.com/dp/B07TESTASN?x=1 "
          "d" "a" "b" "$9.99") =
      some (OutRecord.mk "My Cleanser" "A curated description" "dry skin, oily skin"
        "https://img.example/1.jpg" "https://www.amazon.com/dp/B07TESTASN?x=1" "$12.50") :=
  ⟨by decide,
    reference_path_reuses_entry
      [("B07TESTASN", RefEntry.mk "A curated description" "Dry Skin, Oily Skin"
          "https://img.example/1.jpg" "$12.50")]
      (some "key") ApiOutcome.apiError
      (RawRow.mk " My Cleanser " " https://www.amazon.com/dp/B07TESTASN?x=1 "
        "d" "a" "b" "$9.99")
      (RefEntry.mk "A curated description" "Dry Skin, Oily Skin"
        "https://img.example/1.jpg" "$12.50")
      (by decide)⟩

theorem lowerChar_idem (c : Char) : lowerChar (lowerChar c) = lowerChar c := by
  unfold lowerChar
  by_cases h : 65 ≤ c.toNat ∧ c.toNat ≤ 90
  · rw [if_pos h]
    have hv : (c.toNat + 32).isValidChar := by
      left
      omega
    have ht : (Char.ofNat (c.toNat + 32)).toNat = c.toNat + 32 := by
      unfold Char.ofNat
      rw [dif_pos hv]
      rfl
    rw [if_neg]
    rw [ht]
    omega
  · rw [if_neg h, if_neg h]

theorem pyLower_idem (s : String) : pyLower (pyLower s) = pyLower s := by
  unfold pyLower
  simp only [List.map_map]
  congr 1
  exact List.map_congr_left (fun c _ => lowerChar_idem c)

/-- C10: On both assembly paths the labels stored in the output record have
just been lowercased, so every output record's labels string is lowercase
(equal to its own lowercasing). -/
theorem output_labels_lowercase (ref : List (String × RefEntry))
    (apiKey : Option String) (outcome : ApiOutcome) (row : RawRow) (rec : OutRecord)
    (h : processRow ref apiKey outcome row = some rec) :
    pyLower rec.labels = rec.labels := by
  simp only [processRow] at h
  cases hlk : List.lookup (extract_asin (pyStrip row.url)) ref with
  | some r =>
    rw [hlk] at h
    simp only [Option.some.injEq] at h
    rw [← h]
    exact pyLower_idem r.labels
  | none =>
    rw [hlk] at h
    cases hgen : generate_description_and_labels apiKey outcome (pyStrip row.title)
        (raw_text_for_llm row) with
    | none =>
      rw [hgen] at h
      exact absurd h (by simp)
    | some p =>
      rw [hgen] at h
      cases hnp : normalize_price (pyStrip row.wholePriceBlockText) with
      | none =>
        rw [hnp] at h
        exact absurd h (by simp)
      | some price =>
        rw [hnp] at h
        simp only [Option.some.injEq] at h
        rw [← h]
        exact pyLower_idem p.2

theorem output_labels_lowercase_witness :
    processRow [] none ApiOutcome.apiError
        (RawRow.mk "Toner for Oily skin" "" "" "" "" "$5") =
      some (OutRecord.mk "Toner for Oily skin" "Toner for Oily skin\n\nToner for Oily skin"
        "oily skin" "" "" "5") ∧
      pyLower (OutRecord.mk "Toner for Oily skin" "Toner for Oily skin\n\nToner for Oily skin"
          "oily skin" "" "" "5").labels =
        (OutRecord.mk "Toner for Oily skin" "Toner for Oily skin\n\nToner for Oily skin"
          "oily skin" "" "" "5").labels :=
  ⟨by decide,
    output_labels_lowercase [] none ApiOutcome.apiError
      (RawRow.mk "Toner for Oily skin" "" "" "" "" "$5")
      (OutRecord.mk "Toner for Oily skin" "Toner for Oily skin\n\nToner for Oily skin"
        "oily skin" "" "" "5")
      (by decide)⟩

/-- C5 (amended): With no credential configured (unset or empty), the result
of `generate_description_and_labels` does not depend on the outcome of any
network call (no request is issued), and it is the deterministic fallback
pair, whose description is non-empty whenever the title or the raw text is
non-empty.  (As stated the claim fails: with an empty title AND empty raw
text the fallback description is the empty title itself.) -/
theorem gen_no_key_pure_fallback (apiKey : Option String) (o₁ o₂ : ApiOutcome)
    (title raw_text : String) (hkey : apiKeyFalsy apiKey = true) :
    generate_description_and_labels apiKey o₁ title raw_text =
        generate_description_and_labels apiKey o₂ title raw_text ∧
      generate_description_and_labels apiKey o₁ title raw_text =
        some (genFallbackDesc title raw_text, fallback_labels title raw_text) ∧
      ((title ≠ "" ∨ raw_text ≠ "") → genFallbackDesc title raw_text ≠ "") := by
  refine ⟨?_, ?_, ?_⟩
  · unfold generate_description_and_labels
    rw [if_pos hkey, if_pos hkey]
  · unfold generate_description_and_labels
    rw [if_pos hkey]
  · intro hne
    unfold genFallbackDesc
    by_cases hr : raw_text ≠ ""
    · rw [if_pos hr]
      intro hcon
      have : (title ++ "\n\n" ++ strTake raw_text 1500).data = ([] : List Char) := by
        rw [hcon]
      simp only [String.data_append] at this
      exact absurd this (by simp)
    · rw [if_neg hr]
      rcases hne with ht | hr2
      · exact ht
      · exact absurd hr2 (by simpa using hr)

theorem gen_no_key_pure_fallback_witness :
    apiKeyFalsy none = true ∧
      generate_description_and_labels none ApiOutcome.apiError "Vitamin C Serum" "" =
        generate_description_and_labels none ApiOutcome.noModule "Vitamin C Serum" "" ∧
      generate_description_and_labels none ApiOutcome.apiError "Vitamin C Serum" "" =
        some (genFallbackDesc "Vitamin C Serum" "", fallback_labels "Vitamin C Serum" "") ∧
      genFallbackDesc "Vitamin C Serum" "" ≠ "" := by
  have h := gen_no_key_pure_fallback none ApiOutcome.apiError ApiOutcome.noModule
    "Vitamin C Serum" "" (by decide)
  exact ⟨by decide, h.1, h.2.1, h.2.2 (Or.inl (by decide))⟩

/-- C5 counterexample: with no credential and both the title and the raw text
empty, the returned description is the empty string, refuting "always returns
a non-empty description" as universally stated. -/
theorem gen_no_key_empty_desc :
    generate_description_and_labels none ApiOutcome.apiError "" "" = some ("", "") := by
  decide

/-- C1 (amended): With a credential configured, a request failure and a
malformed (non-JSON) response produce identical results, namely the
description `title + "\n\n" + raw_text[:1500]` with the keyword-fallback
labels; this equals the no-credential fallback result whenever the raw text
is non-empty.  (As stated the claim fails: with empty raw text the failure
branches keep a trailing `"\n\n"` after the title while the no-credential
branch returns the bare title.) -/
theorem gen_failure_branches_agree (k : String) (content : List String)
    (o : ApiOutcome) (title raw_text : String) (hk : k ≠ "")
    (hbad : jsonParse (cleanedResponse content) = none) :
    generate_description_and_labels (some k) (ApiOutcome.success content) title raw_text =
        generate_description_and_labels (some k) ApiOutcome.apiError title raw_text ∧
      generate_description_and_labels (some k) ApiOutcome.apiError title raw_text =
        some (title ++ "\n\n" ++ strTake raw_text 1500, fallback_labels title raw_text) ∧
      (raw_text ≠ "" →
        generate_description_and_labels (some k) ApiOutcome.apiError title raw_text =
          generate_description_and_labels none o title raw_text) := by
  have hkey : apiKeyFalsy (some k) = false := by
    unfold apiKeyFalsy
    exact decide_eq_false hk
  refine ⟨?_, ?_, ?_⟩
  · unfold generate_description_and_labels
    rw [hkey]
    simp only [Bool.false_eq_true, if_false, hbad]
  · unfold generate_description_and_labels
    rw [hkey]
    simp only [Bool.false_eq_true, if_false]
  · intro hr
    unfold generate_description_and_labels
    rw [hkey]
    simp only [Bool.false_eq_true, if_false, apiKeyFalsy, if_true]
    unfold genFallbackDesc
    rw [if_pos hr]

theorem gen_failure_branches_agree_witness :
    ("sk-test" : String) ≠ "" ∧
      jsonParse (cleanedResponse ["no valid JSON in this reply"]) = none ∧
      generate_description_and_labels (some "sk-test")
          (ApiOutcome.success ["no valid JSON in this reply"]) "Face Wash" "Gentle daily cleanser" =
        generate_description_and_labels (some "sk-test") ApiOutcome.apiError
          "Face Wash" "Gentle daily cleanser" ∧
      generate_description_and_labels (some "sk-test") ApiOutcome.apiError
          "Face Wash" "Gentle daily cleanser" =
        some ("Face Wash" ++ "\n\n" ++ strTake "Gentle daily cleanser" 1500,
          fallback_labels "Face Wash" "Gentle daily cleanser") ∧
      generate_description_and_labels (some "sk-test") ApiOutcome.apiError
          "Face Wash" "Gentle daily cleanser" =
        generate_description_and_labels none ApiOutcome.noModule
          "Face Wash" "Gentle daily cleanser" := by
  have h := gen_failure_branches_agree "sk-test" ["no valid JSON in this reply"]
    ApiOutcome.noModule "Face Wash" "Gentle daily cleanser" (by decide) (by rfl)
  exact ⟨by decide, by rfl, h.1, h.2.1, h.2.2 (by decide)⟩

/-- C1 counterexample: with an empty raw text the request-failure result keeps
a trailing blank-line separator after the title, while the no-credential
fallback is the bare title, so the two are not equal for every input. -/
theorem gen_failure_neq_nokey_fallback :
    generate_description_and_labels (some "sk-test") ApiOutcome.apiError "Toner" "" =
        some ("Toner\n\n", "") ∧
      generate_description_and_labels none ApiOutcome.apiError "Toner" "" =
        some ("Toner", "") ∧
      ("Toner\n\n" : String) ≠ "Toner" := by
  refine ⟨by decide, by decide, by decide⟩

theorem splitComma_ne_nil (l : List Char) : splitComma l ≠ [] := by
  induction l with
  | nil => simp [splitComma]
  | cons c t ih =>
    unfold splitComma
    by_cases hc : c = ','
    · simp [hc]
    · rw [if_neg hc]
      cases h : splitComma t with
      | nil => exact absurd h ih
      | cons u us => simp

theorem splitComma_append_comma (x m : List Char) (hx : ',' ∉ x) :
    splitComma (x ++ ',' :: m) = x :: splitComma m := by
  induction x with
  | nil => simp [splitComma]
  | cons c t ih =>
    have hc : c ≠ ',' := fun h => hx (h ▸ List.mem_cons_self c t)
    have ht : ',' ∉ t := fun h => hx (List.mem_cons_of_mem c h)
    simp only [List.cons_append, splitComma, if_neg hc, List.append_eq, ih ht]

theorem map_lower_joinComma (ls : List (List Char)) :
    (joinComma ls).map lowerChar = joinComma (ls.map (List.map lowerChar)) := by
  induction ls with
  | nil => rfl
  | cons x xs ih =>
    cases xs with
    | nil => rfl
    | cons y ys =>
      show (x ++ ',' :: joinComma (y :: ys)).map lowerChar = _
      rw [List.map_append]
      simp only [List.map_cons]
      rw [ih]
      have hcomma : lowerChar ',' = ',' := by decide
      rw [hcomma]
      rfl

theorem splitComma_joinComma (ls : List (List Char)) (hne : ls ≠ [])
    (hc : ∀ u ∈ ls, ',' ∉ u) : splitComma (joinComma ls) = ls := by
  induction ls with
  | nil => exact absurd rfl hne
  | cons x xs ih =>
    cases xs with
    | nil =>
      show splitComma x = [x]
      have hx : ',' ∉ x := hc x (List.mem_cons_self x [])
      clear hc hne ih
      induction x with
      | nil => rfl
      | cons c t iht =>
        have hcc : c ≠ ',' := fun h => hx (h ▸ List.mem_cons_self c t)
        have htt : ',' ∉ t := fun h => hx (List.mem_cons_of_mem c h)
        unfold splitComma
        rw [if_neg hcc, iht htt]
    | cons y ys =>
      show splitComma (x ++ ',' :: joinComma (y :: ys)) = x :: y :: ys
      rw [splitComma_append_comma x _ (hc x (List.mem_cons_self x _))]
      rw [ih (by simp) (fun u hu => hc u (List.mem_cons_of_mem x hu))]

theorem allowed_labels_comma_free :
    ∀ s ∈ ALLOWED_LABELS, ',' ∉ s.data.map lowerChar := by
  decide

theorem pyLower_fallback_labels (title raw_text : String) :
    pyLower (fallback_labels title raw_text) = fallback_labels title raw_text := by
  unfold fallback_labels
  by_cases hm :
      (ALLOWED_LABELS.filter
        (fun lb => containsSub (normKw (title ++ " " ++ raw_text).data) (normKw lb.data))).isEmpty
  · simp only [hm, if_true]
    rfl
  · simp only [hm, Bool.false_eq_true, if_false]
    unfold pyLower
    simp only [List.map_map]
    congr 1
    exact List.map_congr_left (fun c _ => lowerChar_idem c)

/-- C2 (amended): Labels produced by the keyword fallback are always drawn
from the fixed allowed set, lowercased and comma-joined, or the empty string,
and so are the labels of any record assembled on the no-credential generation
path.  (As universally stated the claim fails: on the reference-reuse path —
and on the API-success path — the labels are passed through lowercased but
unvalidated, so free-text labels from the reference data appear in output.) -/
theorem labels_wellformed_on_fallback_path :
    (∀ title raw_text, wellFormedLabels (fallback_labels title raw_text) = true) ∧
      (∀ (ref : List (String × RefEntry)) (apiKey : Option String) (outcome : ApiOutcome)
          (row : RawRow) (rec : OutRecord),
        apiKeyFalsy apiKey = true →
        List.lookup (extract_asin (pyStrip row.url)) ref = none →
        processRow ref apiKey outcome row = some rec →
        wellFormedLabels rec.labels = true) := by
  have main : ∀ title raw_text, wellFormedLabels (fallback_labels title raw_text) = true := by
    intro t r
    unfold fallback_labels
    by_cases hm :
        (ALLOWED_LABELS.filter
          (fun lb => containsSub (normKw (t ++ " " ++ r).data) (normKw lb.data))).isEmpty
    · simp only [hm, if_true]
      rfl
    · simp only [hm, Bool.false_eq_true, if_false]
      set matched :=
        ALLOWED_LABELS.filter
          (fun lb => containsSub (normKw (t ++ " " ++ r).data) (normKw lb.data)) with hmatched
      have hmem : ∀ x ∈ matched, x ∈ ALLOWED_LABELS := by
        intro x hx
        exact (List.mem_filter.mp hx).1
      have hne : matched ≠ [] := by
        intro hcon
        rw [hcon] at hm
        exact hm rfl
      set ls := (matched.map String.data).map (List.map lowerChar) with hls
      have h1 : (joinComma (matched.map String.data)).map lowerChar = joinComma ls :=
        map_lower_joinComma (matched.map String.data)
      have hlsne : ls ≠ [] := by
        simp only [hls, ne_eq, List.map_eq_nil_iff]
        exact hne
      have hcf : ∀ u ∈ ls, ',' ∉ u := by
        intro u hu
        simp only [hls, List.map_map, List.mem_map] at hu
        obtain ⟨x, hx, hxu⟩ := hu
        rw [← hxu]
        exact allowed_labels_comma_free x (hmem x hx)
      have h2 : splitComma (joinComma ls) = ls := splitComma_joinComma ls hlsne hcf
      unfold wellFormedLabels
      have hdata : (String.mk ((joinComma (matched.map String.data)).map lowerChar)).data =
          joinComma ls := h1
      rw [hdata, h2]
      have hall : ls.all (fun u => allowedLowerL.contains u) = true := by
        rw [List.all_eq_true]
        intro u hu
        simp only [hls, List.map_map, List.mem_map] at hu
        obtain ⟨x, hx, hxu⟩ := hu
        have : u ∈ allowedLowerL := by
          unfold allowedLowerL
          rw [← hxu]
          exact List.mem_map_of_mem (fun s => s.data.map lowerChar) (hmem x hx)
        exact List.elem_eq_true_of_mem this
      rw [hall]
      simp
  refine ⟨main, ?_⟩
  intro ref apiKey outcome row rec hkey hlk h
  simp only [processRow] at h
  rw [hlk] at h
  unfold generate_description_and_labels at h
  rw [if_pos hkey] at h
  cases hnp : normalize_price (pyStrip row.wholePriceBlockText) with
  | none =>
    rw [hnp] at h
    exact absurd h (by simp)
  | some price =>
    rw [hnp] at h
    simp only [Option.some.injEq] at h
    rw [← h]
    show wellFormedLabels (pyLower (fallback_labels (pyStrip row.title) (raw_text_for_llm row))) = true
    rw [pyLower_fallback_labels]
    exact main _ _

theorem labels_wellformed_on_fallback_path_witness :
    apiKeyFalsy none = true ∧
      List.lookup (extract_asin (pyStrip "")) ([] : List (String × RefEntry)) = none ∧
      processRow [] none ApiOutcome.apiError (RawRow.mk "Dry skin balm" "" "" "" "" "") =
        some (OutRecord.mk "Dry skin balm" "Dry skin balm\n\nDry skin balm"
          "dry skin" "" "" "") ∧
      wellFormedLabels (OutRecord.mk "Dry skin balm" "Dry skin balm\n\nDry skin balm"
          "dry skin" "" "" "").labels = true :=
  ⟨by decide, by decide, by decide,
    labels_wellformed_on_fallback_path.2 [] none ApiOutcome.apiError
      (RawRow.mk "Dry skin balm" "" "" "" "" "")
      (OutRecord.mk "Dry skin balm" "Dry skin balm\n\nDry skin balm" "dry skin" "" "" "")
      (by decide) (by decide) (by decide)⟩

/-- C2 counterexample: a reference entry carrying the free-text labels
`"Magic Potion"` flows into the output record as `"magic potion"`, which is
not composed of allowed-set labels, refuting the invariant as stated for all
paths. -/
theorem reference_labels_unvalidated :
    processRow [("B000000001", RefEntry.mk "desc" "Magic Potion" "img" "5")] none
        ApiOutcome.apiError (RawRow.mk "P" "x.com/dp/B000000001" "" "" "" "") =
      some (OutRecord.mk "P" "desc" "magic potion" "img" "x.com/dp/B000000001" "5") ∧
    wellFormedLabels "magic potion" = false :=
  ⟨by decide, by decide⟩

theorem dropWhile_head_false (p : Char → Bool) (l : List Char) (c : Char) (t : List Char)
    (h : l.dropWhile p = c :: t) : p c = false := by
  induction l with
  | nil => exact absurd h (by simp)
  | cons a l' ih =>
    rw [List.dropWhile_cons] at h
    by_cases hpa : p a = true
    · rw [if_pos hpa] at h
      exact ih h
    · rw [if_neg hpa] at h
      cases h
      exact Bool.eq_false_iff.mpr hpa

theorem dropTrail_cons (p : Char → Bool) (c : Char) (t : List Char) :
    dropTrail p (c :: t) =
      if (dropTrail p t).isEmpty && p c then [] else c :: dropTrail p t := rfl

theorem dropTrail_idem (p : Char → Bool) (l : List Char) :
    dropTrail p (dropTrail p l) = dropTrail p l := by
  induction l with
  | nil => rfl
  | cons c t ih =>
    rw [dropTrail_cons]
    by_cases hcond : ((dropTrail p t).isEmpty && p c) = true
    · rw [if_pos hcond]
      rfl
    · rw [if_neg hcond, dropTrail_cons, ih]
      rw [if_neg hcond]

theorem dropWhile_dropTrail_dropWhile (p : Char → Bool) (l : List Char) :
    (dropTrail p (l.dropWhile p)).dropWhile p = dropTrail p (l.dropWhile p) := by
  cases hu : l.dropWhile p with
  | nil => rfl
  | cons c t =>
    have hpc : p c = false := dropWhile_head_false p l c t hu
    rw [dropTrail_cons]
    by_cases hcond : ((dropTrail p t).isEmpty && p c) = true
    · rw [if_pos hcond]
      rfl
    · rw [if_neg hcond]
      exact List.dropWhile_cons_of_neg (by simp [hpc])

theorem stripChars_idem (l : List Char) : stripChars (stripChars l) = stripChars l := by
  unfold stripChars
  rw [dropWhile_dropTrail_dropWhile, dropTrail_idem]

theorem pyStrip_idem (s : String) : pyStrip (pyStrip s) = pyStrip s := by
  unfold pyStrip
  exact congrArg String.mk (stripChars_idem s.data)

theorem normPrice_of_matchNone (s : String) (h : matchPrice (pyStrip s).data = none) :
    normalize_price s = some (pyStrip s) := by
  simp only [normalize_price]
  by_cases hr : pyStrip s = ""
  · rw [if_pos hr, hr]
  · rw [if_neg hr, h]

/-- C3 (amended): `normalize_price` satisfies the four stated examples and
each of their outputs is a fixed point, and it is idempotent on every input
the price pattern does not match (such inputs come back stripped and then
map to themselves); but idempotence fails in general, because the two-decimal
rendering of a non-whole float can end in `.00` and then re-normalize to a
bare integer (e.g. `"1.999"` → `"2.00"` → `"2"`). -/
theorem normalize_price_idem_on_examples :
    (∀ s : String, matchPrice (pyStrip s).data = none →
      normalize_price s = some (pyStrip s) ∧
        normalize_price (pyStrip s) = some (pyStrip s)) ∧
      normalize_price "$15.00" = some "15" ∧ normalize_price "15" = some "15" ∧
      normalize_price "12.99" = some "12.99" ∧
      normalize_price "$7" = some "7" ∧ normalize_price "7" = some "7" ∧
      normalize_price "abc" = some "abc" := by
  refine ⟨?_, by decide, by decide, by decide, by decide, by decide, by decide⟩
  intro s h
  refine ⟨normPrice_of_matchNone s h, ?_⟩
  have h2 : matchPrice (pyStrip (pyStrip s)).data = none := by
    rw [pyStrip_idem]
    exact h
  have := normPrice_of_matchNone (pyStrip s) h2
  rw [pyStrip_idem] at this
  exact this

theorem normalize_price_idem_on_examples_witness :
    matchPrice (pyStrip " 3 abc").data = none ∧
      normalize_price " 3 abc" = some "3 abc" ∧
      normalize_price "3 abc" = some "3 abc" := by
  have h := normalize_price_idem_on_examples.1 " 3 abc" (by decide)
  exact ⟨by decide, h.1, h.2⟩

/-- C3 counterexample: `normalize_price "1.999"` renders the non-whole float
as `"2.00"`, and normalizing `"2.00"` gives `"2"`, so
`normalize_price (normalize_price s) ≠ normalize_price s` at `s = "1.999"`. -/
theorem normalize_price_not_idempotent :
    normalize_price "1.999" = some "2.00" ∧ normalize_price "2.00" = some "2" ∧
      some ("2" : String) ≠ some ("2.00" : String) :=
  ⟨by decide, by decide, by decide⟩

theorem digitChar_isDigit (n : ℕ) : (digitChar n).isDigit = true := by
  match n with
  | 0 | 1 | 2 | 3 | 4 | 5 | 6 | 7 | 8 | 9 => rfl
  | n + 10 => rfl

theorem natReprAux_all_digits (fuel n : ℕ) :
    (natReprAux fuel n).all Char.isDigit = true := by
  induction fuel generalizing n with
  | zero => rfl
  | succ f ih =>
    unfold natReprAux
    by_cases h : n < 10
    · rw [if_pos h]
      simp [digitChar_isDigit]
    · rw [if_neg h]
      rw [List.all_append]
      simp [ih, digitChar_isDigit]

theorem natReprAux_ne_nil (fuel n : ℕ) (h : 1 ≤ fuel) : natReprAux fuel n ≠ [] := by
  cases fuel with
  | zero => omega
  | succ f =>
    unfold natReprAux
    by_cases hn : n < 10
    · rw [if_pos hn]
      simp
    · rw [if_neg hn]
      simp

theorem natRepr_all_digits (n : ℕ) : (natRepr n).all Char.isDigit = true :=
  natReprAux_all_digits (n + 1) n

theorem natRepr_ne_nil (n : ℕ) : natRepr n ≠ [] :=
  natReprAux_ne_nil (n + 1) n (by omega)

theorem matchPrice_nil : matchPrice [] = none := rfl

/-- C4 (amended): `normalize_price` strips a leading currency symbol and
surrounding whitespace; when the remainder matches the plain-decimal pattern
and `float` conversion does not overflow it renders float-whole values as a
bare digit string and non-whole values as a digit string with exactly two
decimal digits; when the converted value overflows the binary64 range the
function raises (`OverflowError` from `int(inf)`, modelled by `none`); and a
non-matching input is returned stripped of surrounding whitespace, not
unchanged. -/
theorem normalize_price_shape (s : String) :
    (matchPrice (pyStrip s).data = none → normalize_price s = some (pyStrip s)) ∧
      (∀ ip fp, matchPrice (pyStrip s).data = some (ip, fp) →
        (floatOfDecimal (natOfDigits (ip ++ fp)) fp.length (sigDigits ip fp) = none →
          normalize_price s = none) ∧
        (∀ m sh,
          floatOfDecimal (natOfDigits (ip ++ fp)) fp.length (sigDigits ip fp) = some (m, sh) →
          (wholeFloat m sh = true →
            normalize_price s = some ⟨natRepr (intOfFloat m sh)⟩ ∧
              (natRepr (intOfFloat m sh)).all Char.isDigit = true ∧
              natRepr (intOfFloat m sh) ≠ []) ∧
          (wholeFloat m sh = false →
            normalize_price s = some ⟨fmt2of m sh⟩ ∧
              ∃ a d₁ d₂, fmt2of m sh = a ++ '.' :: [d₁, d₂] ∧
                a.all Char.isDigit = true ∧ a ≠ [] ∧
                d₁.isDigit = true ∧ d₂.isDigit = true))) := by
  constructor
  · exact normPrice_of_matchNone s
  · intro ip fp hmatch
    have hne : pyStrip s ≠ "" := by
      intro hcon
      have : matchPrice (pyStrip s).data = none := by
        rw [hcon]
        exact matchPrice_nil
      rw [this] at hmatch
      exact absurd hmatch (by simp)
    constructor
    · intro hfloat
      simp only [normalize_price]
      rw [if_neg hne]
      simp only [hmatch, hfloat]
    · intro m sh hfloat
      constructor
      · intro hwhole
        refine ⟨?_, natRepr_all_digits _, natRepr_ne_nil _⟩
        simp only [normalize_price]
        rw [if_neg hne]
        simp only [hmatch, hfloat, hwhole, if_true]
      · intro hwhole
        constructor
        · simp only [normalize_price]
          rw [if_neg hne]
          simp only [hmatch, hfloat, hwhole, Bool.false_eq_true, if_false]
        · refine ⟨natRepr ((if 0 ≤ sh then m * 100 * 2 ^ sh.toNat
            else rheDiv (m * 100) (2 ^ (-sh).toNat)) / 100),
            digitChar ((if 0 ≤ sh then m * 100 * 2 ^ sh.toNat
              else rheDiv (m * 100) (2 ^ (-sh).toNat)) % 100 / 10),
            digitChar ((if 0 ≤ sh then m * 100 * 2 ^ sh.toNat
              else rheDiv (m * 100) (2 ^ (-sh).toNat)) % 100 % 10), ?_,
            natRepr_all_digits _, natRepr_ne_nil _, digitChar_isDigit _, digitChar_isDigit _⟩
          rfl

theorem normalize_price_shape_witness :
    matchPrice (pyStrip "$15.00").data = some (['1', '5'], ['0', '0']) ∧
      floatOfDecimal (natOfDigits (['1', '5'] ++ ['0', '0'])) (['0', '0'] : List Char).length
          (sigDigits ['1', '5'] ['0', '0']) = some (8444249301319680, -49) ∧
      wholeFloat 8444249301319680 (-49) = true ∧
      normalize_price "$15.00" = some ⟨natRepr (intOfFloat 8444249301319680 (-49))⟩ ∧
      (natRepr (intOfFloat 8444249301319680 (-49))).all Char.isDigit = true := by
  have h := ((normalize_price_shape "$15.00").2 ['1', '5'] ['0', '0'] (by decide)).2
    8444249301319680 (-49) (by decide)
  have hw := h.1 (by decide)
  exact ⟨by decide, by decide, by decide, hw.1, hw.2.1⟩

/-- C4 counterexample: on a 310-digit price string the matched number
overflows `float` to `inf` and `int(num)` raises `OverflowError`, so
`normalize_price` does not return a value for every input (modelled by
`none`). -/
theorem normalize_price_overflow_raises :
    normalize_price ⟨List.replicate 310 '9'⟩ = none := by decide

theorem scanAsin_none (l : List Char)
    (h : ∀ j, j < l.length → matchAt (l.drop j) = none) : scanAsin l = none := by
  induction l with
  | nil => rfl
  | cons c t ih =>
    unfold scanAsin
    have h0 : matchAt (c :: t) = none := by
      have := h 0 (by simp)
      rwa [List.drop_zero] at this
    rw [h0]
    exact ih (fun j hj => by
      have := h (j + 1) (by simpa using hj)
      rwa [List.drop_succ_cons] at this)

theorem scanAsin_leading (pre rest : List Char) (code : List Char)
    (hm : matchAt rest = some code)
    (h : ∀ j, j < pre.length → matchAt ((pre ++ rest).drop j) = none) :
    scanAsin (pre ++ rest) = some code := by
  induction pre with
  | nil =>
    rw [List.nil_append]
    cases rest with
    | nil => exact absurd hm (by simp [matchAt])
    | cons c t =>
      unfold scanAsin
      rw [hm]
  | cons p ps ih =>
    rw [List.cons_append]
    unfold scanAsin
    have h0 : matchAt (p :: (ps ++ rest)) = none := by
      have := h 0 (by simp)
      rwa [List.drop_zero, List.cons_append] at this
    rw [h0]
    exact ih (fun j hj => by
      have := h (j + 1) (by simp; omega)
      rwa [List.cons_append, List.drop_succ_cons] at this)

theorem takeWhile_append_all (p : Char → Bool) (xs ys : List Char)
    (h : ∀ c ∈ xs, p c = true) : (xs ++ ys).takeWhile p = xs ++ ys.takeWhile p := by
  induction xs with
  | nil => simp
  | cons x xt ih =>
    rw [List.cons_append, List.takeWhile_cons, if_pos (h x (List.mem_cons_self x xt))]
    rw [ih (fun c hc => h c (List.mem_cons_of_mem x hc))]
    rfl

theorem matchAt_dp (code suf : List Char) (hlen : code.length = 10)
    (hcode : ∀ c ∈ code, asinChar c = true) :
    matchAt ('/' :: 'd' :: 'p' :: '/' :: (code ++ suf)) = some code := by
  unfold matchAt
  have hc : List.take 4 ('/' :: 'd' :: 'p' :: '/' :: (code ++ suf)) = ['/', 'd', 'p', '/'] := rfl
  rw [hc]
  simp only [if_true, eq_self_iff_true]
  show (if 9 ≤ ((code ++ suf).takeWhile asinChar).length then
    some (((code ++ suf).takeWhile asinChar).take 10) else none) = some code
  rw [takeWhile_append_all asinChar code suf hcode]
  rw [if_pos (by rw [List.length_append, hlen]; omega)]
  rw [← hlen, List.take_left]

/-- C6: For every URL containing the identifier pattern — a `/dp/` segment
followed by a ten-character `[A-Z0-9]` code, with no earlier match in the
prefix — `_extract_asin` returns exactly the embedded identifier; for every
URL in which the pattern matches nowhere (including the empty string, and
`None`, which the source coalesces to `""`), it returns the empty string. -/
theorem extract_asin_spec :
    (∀ s : String, (∀ j, j < s.data.length → matchAt (s.data.drop j) = none) →
        extract_asin s = "") ∧
      (∀ pre code suf : List Char,
        (∀ j, j < pre.length →
          matchAt ((pre ++ '/' :: 'd' :: 'p' :: '/' :: (code ++ suf)).drop j) = none) →
        code.length = 10 → (∀ c ∈ code, asinChar c = true) →
        extract_asin ⟨pre ++ '/' :: 'd' :: 'p' :: '/' :: (code ++ suf)⟩ = ⟨code⟩) ∧
      extract_asin "" = "" ∧ extract_asin_opt none = "" := by
  refine ⟨?_, ?_, rfl, rfl⟩
  · intro s h
    unfold extract_asin
    rw [scanAsin_none s.data h]
  · intro pre code suf h hlen hcode
    unfold extract_asin
    show (match scanAsin (pre ++ '/' :: 'd' :: 'p' :: '/' :: (code ++ suf)) with
      | some r => String.mk r
      | none => "") = String.mk code
    rw [scanAsin_leading pre _ code (matchAt_dp code suf hlen hcode) h]

theorem extract_asin_spec_witness :
    (∀ j, j < ("https://www.amazon.com".data).length →
      matchAt (("https://www.amazon.com".data ++
        '/' :: 'd' :: 'p' :: '/' :: ("B01N1SE4EP".data ++ "?th=1".data)).drop j) = none) ∧
      ("B01N1SE4EP".data).length = 10 ∧
      extract_asin ⟨"https://www.amazon.com".data ++
        '/' :: 'd' :: 'p' :: '/' :: ("B01N1SE4EP".data ++ "?th=1".data)⟩ = ⟨"B01N1SE4EP".data⟩ ∧
      (∀ j, j < ("no pattern here".data).length →
        matchAt (("no pattern here".data).drop j) = none) ∧
      extract_asin "no pattern here" = "" :=
  ⟨by decide, by decide,
    extract_asin_spec.2.1 "https://www.amazon.com".data "B01N1SE4EP".data "?th=1".data
      (by decide) (by decide) (by decide),
    by decide,
    extract_asin_spec.1 "no pattern here" (by decide)⟩
